import Mathlib

/-!
Verification of the EPIG Photo Segmentation & Room-Clustering Engine.

Shallow embedding of the core pipeline of the repository:
- `src/src/ingest_dataset.py`: OCR observation extraction (`detect_slate`,
  `detect_room_marker`), with the external OCR engine abstracted as a
  function from (region, page-segmentation mode) to the text it reads.
- `src/scripts/room_segments_v2.py`: the sequential segmentation fold
  (`is_valid_marker`, `close_cur`, `start_segment`, the per-page loop).
- `src/scripts/room_graph_ransac.py`: keypoint similarity scoring
  (`ransac_inliers`) and the pairwise graph build (`build_graph`), with the
  external homography estimator abstracted as an oracle returning an
  optional inlier mask.

Python strings are modelled as `List Char` where character-level
processing matters (OCR text) and as `String` where strings are opaque
values (marker texts, labels, reasons).  Machine floats appear only in
the 0.75 ratio test, which is rendered exactly over naturals
(`d < 0.75 * d'` iff `4 * d < 3 * d'`).  A Python exception (unpacking or
indexing failure) is modelled as `Option.none` of the embedded result.
-/

/-! ## Slate detection (`src/src/ingest_dataset.py`, `detect_slate`) -/

/-- Python substring helper: `small` is a prefix of `big`. -/
def starts_with : List Char → List Char → Bool
  | _, [] => true
  | [], _ :: _ => false
  | b :: bs, s :: ss => b == s && starts_with bs ss

/-- Python's `small in big` on strings: `small` occurs contiguously in `big`. -/
def has_sub : List Char → List Char → Bool
  | [], small => small.isEmpty
  | b :: bs, small => starts_with (b :: bs) small || has_sub bs small

/-- A character kept by the compacting regex `[^A-Z0-9]` after upper-casing:
an ASCII capital letter or digit. -/
def is_az09 (c : Char) : Bool :=
  ('A' ≤ c && c ≤ 'Z') || ('0' ≤ c && c ≤ '9')

/-- `re.sub(r"[^A-Z0-9]", "", s.upper())`: upper-case, keep only A-Z0-9.
Python `str.upper` is modelled per character (ASCII). -/
def compact_az09 (s : List Char) : List Char :=
  (s.map Char.toUpper).filter is_az09

/-- One keyword's match test from `detect_slate`:
`(k_raw.upper() in up) or (k_cmp and k_cmp in compact)` where `up` is the
upper-cased OCR text and `compact` its compacted form. -/
def kw_matches (up compact : List Char) (k : List Char) : Bool :=
  has_sub up (k.map Char.toUpper) ||
    (!(compact_az09 k).isEmpty && has_sub compact (compact_az09 k))

/-- The `found` list of `detect_slate`: keywords matching raw or compacted. -/
def slate_found (txt : List Char) (keywords : List (List Char)) : List (List Char) :=
  keywords.filter (kw_matches (txt.map Char.toUpper) (compact_az09 txt))

/-- The `strong` flag of `detect_slate`:
`all(...) if strong_keywords else False`. -/
def slate_strong (txt : List Char) (strong_keywords : List (List Char)) : Bool :=
  if strong_keywords.isEmpty then false
  else strong_keywords.all (kw_matches (txt.map Char.toUpper) (compact_az09 txt))

/-- `detect_slate` with the external OCR call abstracted: `txt` is the text
the OCR engine read from the configured region.  Returns
`(is_slate, raw_text, keywords_found)`. -/
def detect_slate (txt : List Char) (keywords : List (List Char))
    (min_keywords : Nat) (strong_keywords : List (List Char)) :
    Bool × List Char × List (List Char) :=
  let found := slate_found txt keywords
  let strong := slate_strong txt strong_keywords
  (decide (min_keywords ≤ found.length) || strong, txt, found)

/-! ## Marker validity (`src/scripts/room_segments_v2.py` and
`src/scripts/room_segments.py`, `is_valid_marker`; the two scripts define
the same function verbatim) -/

/-- Python `str.isalpha`: nonempty and every character alphabetic. -/
def str_isalpha (s : String) : Bool :=
  !s.data.isEmpty && s.data.all Char.isAlpha

/-- `is_valid_marker(m)`: `None` is rejected; a length-1 alphabetic string
or a length-2 string of two identical characters that is alphabetic is
accepted; everything else is rejected. -/
def is_valid_marker : Option String → Bool
  | none => false
  | some m =>
    if m.length == 1 && str_isalpha m then true
    else if m.length == 2 && (m.data.getD 0 ' ' == m.data.getD 1 ' ') && str_isalpha m then true
    else false

/-! ## Claims C4, C7, C10 -/

/-- C4: the segmentation validity predicate `is_valid_marker` accepts
exactly the one-character alphabetic strings and the two-character strings
of two identical alphabetic characters; every other string, and `None`,
is rejected. -/
theorem c4_theorem (m : Option String) :
    is_valid_marker m = true ↔
      ∃ sel, m = some sel ∧
        ((∃ c, sel.data = [c] ∧ c.isAlpha = true) ∨
         (∃ c, sel.data = [c, c] ∧ c.isAlpha = true)) := by
  cases m with
  | none => simp [is_valid_marker]
  | some s =>
    obtain ⟨l⟩ := s
    constructor
    · intro h
      refine ⟨⟨l⟩, rfl, ?_⟩
      rcases l with _ | ⟨a, _ | ⟨b, _ | ⟨c, t⟩⟩⟩
      · simp [is_valid_marker, str_isalpha, String.length] at h
      · left
        simp only [is_valid_marker, str_isalpha, String.length] at h
        simp at h
        exact ⟨a, rfl, h⟩
      · right
        simp only [is_valid_marker, str_isalpha, String.length] at h
        simp at h
        obtain ⟨hab, ha, hb⟩ := h
        subst hab
        exact ⟨a, rfl, ha⟩
      · simp [is_valid_marker, str_isalpha, String.length] at h
    · rintro ⟨sel, hsel, hc⟩
      injection hsel with hsel
      subst hsel
      rcases hc with ⟨c, hd, hcal⟩ | ⟨c, hd, hcal⟩
      · simp only [String.data] at hd
        subst hd
        simp [is_valid_marker, str_isalpha, String.length, hcal]
      · simp only [String.data] at hd
        subst hd
        simp [is_valid_marker, str_isalpha, String.length, hcal]

/-- C7 counterexample: as literally stated the claim fails when the strong
keyword list is empty: every strong keyword then matches vacuously, yet
`detect_slate` evaluates the strong rule to `False` (the code guards
`all(...) if strong_keywords else False`), so with `min_keywords = 1` and
no matched keyword `is_slate` is false. -/
theorem c7_counterexample :
    ¬ (∀ (txt : List Char) (kws : List (List Char)) (minK : Nat) (sk : List (List Char)),
        (∀ k ∈ sk, kw_matches (txt.map Char.toUpper) (compact_az09 txt) k = true) →
        (detect_slate txt kws minK sk).1 = true) := by
  intro h
  have h2 := h [] [] 1 [] (by simp)
  exact absurd h2 (by decide)

/-- C7 (amended): for a NONEMPTY strong keyword list, `detect_slate`
returns `is_slate = true` whenever every strong keyword individually
matches (raw uppercased or compacted), even when the matched-keyword count
is below `min_keywords`; otherwise `is_slate` is true iff the
matched-keyword count reaches `min_keywords`. -/
theorem c7_theorem (txt : List Char) (kws : List (List Char)) (minK : Nat)
    (sk : List (List Char)) (hsk : sk ≠ []) :
    ((∀ k ∈ sk, kw_matches (txt.map Char.toUpper) (compact_az09 txt) k = true) →
      (detect_slate txt kws minK sk).1 = true) ∧
    (¬ (∀ k ∈ sk, kw_matches (txt.map Char.toUpper) (compact_az09 txt) k = true) →
      ((detect_slate txt kws minK sk).1 = true ↔ minK ≤ (slate_found txt kws).length)) := by
  have hne : sk.isEmpty = false := by simpa [List.isEmpty_iff] using hsk
  constructor
  · intro hall
    have hs : slate_strong txt sk = true := by
      simp only [slate_strong, hne, Bool.false_eq_true, if_false]
      rw [List.all_eq_true]
      exact hall
    simp [detect_slate, hs]
  · intro hnot
    have hs : slate_strong txt sk = false := by
      simp only [slate_strong, hne, Bool.false_eq_true, if_false]
      cases hall : sk.all (kw_matches (txt.map Char.toUpper) (compact_az09 txt)) with
      | false => rfl
      | true => exact absurd (List.all_eq_true.mp hall) hnot
    simp [detect_slate, hs]

/-- The keyword "DATE", for the slate witnesses. -/
def kw_date : List Char := ['D', 'A', 'T', 'E']

/-- C7 witness: with strong keywords `["DATE"]` all individually matching
the OCR text `"DATE"`, `is_slate` is true although `min_keywords = 5`
exceeds the matched-keyword count. -/
theorem c7_witness :
    ([kw_date] ≠ ([] : List (List Char))) ∧
    (detect_slate kw_date [] 5 [kw_date]).1 = true := by
  refine ⟨by decide, ?_⟩
  exact (c7_theorem kw_date [] 5 [kw_date] (by decide)).1 (by decide)

/-- C10: with an empty strong keyword list the strong rule evaluates to
false rather than vacuously true, so `is_slate` holds iff the
matched-keyword count reaches `min_keywords`. -/
theorem c10_theorem (txt : List Char) (kws : List (List Char)) (minK : Nat) :
    slate_strong txt [] = false ∧
      ((detect_slate txt kws minK []).1 = true ↔
        minK ≤ (slate_found txt kws).length) := by
  constructor
  · rfl
  · simp [detect_slate, slate_strong]

/-! ## Marker detection (`src/src/ingest_dataset.py`, `detect_room_marker`).
The external OCR engine (`ocr_text`, i.e. region crop + binarize +
tesseract with the configured character whitelist) is abstracted as a
function `ocr : Roi → Nat → List Char` from (region tag, page-segmentation
mode) to the text read. -/

/-- Region-of-interest tags understood by `crop_roi` plus the `"multi"`
sentinel checked by `detect_room_marker`. -/
inductive Roi where
  | top
  | slate
  | center
  | full
  | top_band
  | bottom_band
  | left_band
  | right_band
  | center_small
  | multi
deriving DecidableEq

/-- An ASCII capital letter A-Z (the class kept by `re.sub(r"[^A-Z]", ...)`). -/
def is_az (c : Char) : Bool :=
  'A' ≤ c && c ≤ 'Z'

/-- `clean_letters`: `re.sub(r"[^A-Z]", "", s.upper()).strip()`; the strip
is a no-op on text that is already A-Z only. -/
def clean_letters (s : List Char) : List Char :=
  (s.map Char.toUpper).filter is_az

/-- `re.findall(r"[A-Z]{1,2}", s)`: non-overlapping left-to-right greedy
matches of one or two consecutive capital letters. -/
def find_tokens : List Char → List (List Char)
  | [] => []
  | [c] => if is_az c then [[c]] else []
  | c :: d :: rest =>
    if is_az c then
      if is_az d then [c, d] :: find_tokens rest
      else [c] :: find_tokens rest
    else find_tokens (d :: rest)

/-- The default room-marker validity pattern `^[A-Z]{1,2}$` from the
ingestion config (`ocr.room_marker.regex`): one or two capital letters.
`re.match` is only ever applied to A-Z-only candidate strings, so the
trailing-newline subtlety of `$` cannot arise. -/
def default_room_re (s : List Char) : Bool :=
  (s.length == 1 || s.length == 2) && s.all is_az

/-- `best_candidate_from_text`: use the cleaned text itself if it matches
the validity pattern, otherwise the first 1-2 letter token that does. -/
def best_candidate_from_text (pat : List Char → Bool) (txt : List Char) : Option (List Char) :=
  let cand := clean_letters txt
  if pat cand then some cand
  else ((find_tokens (txt.map Char.toUpper)).filter pat).head?

/-- The tuple `(score, marker, ocr_text, roi, psm)` tracked by the
multi-ROI loop of `detect_room_marker`. -/
structure MarkerCand where
  score : Nat
  marker : List Char
  txt : List Char
  roi : Roi
  psm : Nat
deriving DecidableEq

/-- Candidate score: configuration base score, `+2` for a two-letter
candidate else `+1`, plus `max(0, 5 - len(clean_letters(txt)))` (natural
subtraction is exactly that `max`). -/
def marker_score (base : Nat) (cand : List Char) (txt : List Char) : Nat :=
  base + (if cand.length == 2 then 2 else 1) + (5 - (clean_letters txt).length)

/-- `if best is None or score > best[0]: best = ...` -/
def consider : Option MarkerCand → MarkerCand → Option MarkerCand
  | none, c => some c
  | some b, c => if c.score > b.score then some c else some b

/-- One (region, configuration) attempt of the multi-ROI loop: OCR at
`psm`, extract a candidate, score it with `base`, update `best`. -/
def try_roi_psm (ocr : Roi → Nat → List Char) (pat : List Char → Bool)
    (r : Roi) (base psm : Nat) (best : Option MarkerCand) : Option MarkerCand :=
  match best_candidate_from_text pat (ocr r psm) with
  | none => best
  | some cand => consider best ⟨marker_score base cand (ocr r psm), cand, ocr r psm, r, psm⟩

/-- One iteration of `for r in roi_list`: try single-character OCR
(psm 10, base score 10) first, then single-word OCR (psm 8, base 8). -/
def roi_step (ocr : Roi → Nat → List Char) (pat : List Char → Bool)
    (best : Option MarkerCand) (r : Roi) : Option MarkerCand :=
  try_roi_psm ocr pat r 8 8 (try_roi_psm ocr pat r 10 10 best)

/-- The fixed ROI evaluation order of the multi-ROI mode. -/
def roi_list : List Roi :=
  [Roi.left_band, Roi.right_band, Roi.top_band, Roi.bottom_band, Roi.center_small, Roi.full]

/-- The region tag names, as used in the provenance string. -/
def roi_name : Roi → String
  | Roi.top => "top"
  | Roi.slate => "slate"
  | Roi.center => "center"
  | Roi.full => "full"
  | Roi.top_band => "top_band"
  | Roi.bottom_band => "bottom_band"
  | Roi.left_band => "left_band"
  | Roi.right_band => "right_band"
  | Roi.center_small => "center_small"
  | Roi.multi => "multi"

/-- The provenance annotation `f"[roi={r} psm={p}] {txt}"` attached to the
winning candidate's OCR text. -/
def provenance_text (b : MarkerCand) : List Char :=
  "[roi=".data ++ (roi_name b.roi).data ++ " psm=".data ++ (Nat.repr b.psm).data
    ++ "] ".data ++ b.txt

/-- `detect_room_marker`: single-ROI mode (any tag other than `multi`)
tries the configured psm then falls back to single-character OCR; multi-ROI
mode scans `roi_list` at psm 10 and psm 8 keeping the best-scoring
candidate.  Returns `(has_marker, marker, ocr_text)`. -/
def detect_room_marker (ocr : Roi → Nat → List Char) (roi : Roi) (psm : Nat)
    (pat : List Char → Bool) : Bool × Option (List Char) × List Char :=
  if roi ≠ Roi.multi then
    match best_candidate_from_text pat (ocr roi psm) with
    | some cand => (true, some cand, ocr roi psm)
    | none =>
      match best_candidate_from_text pat (ocr roi 10) with
      | some cand2 => (true, some cand2, ocr roi 10)
      | none => (false, none, ocr roi psm)
  else
    match roi_list.foldl (roi_step ocr pat) none with
    | some b => (true, some b.marker, provenance_text b)
    | none => (false, none, [])

/-! ## Claim C1 -/

/-- Any candidate produced by `best_candidate_from_text` satisfies the
validity pattern it was selected with. -/
theorem best_candidate_sound (pat : List Char → Bool) (txt : List Char) (c : List Char)
    (h : best_candidate_from_text pat txt = some c) : pat c = true := by
  simp only [best_candidate_from_text] at h
  by_cases hp : pat (clean_letters txt) = true
  · rw [if_pos hp] at h
    cases h
    exact hp
  · rw [if_neg hp] at h
    cases hl : (find_tokens (txt.map Char.toUpper)).filter pat with
    | nil => rw [hl] at h; cases h
    | cons x xs =>
      rw [hl] at h
      cases h
      have hx : c ∈ (find_tokens (txt.map Char.toUpper)).filter pat := by
        rw [hl]; exact List.mem_cons_self _ _
      exact List.of_mem_filter hx

/-- `consider` preserves a property of the tracked candidate's marker. -/
theorem consider_marker (P : List Char → Prop) (best : Option MarkerCand) (c : MarkerCand)
    (hb : ∀ b, best = some b → P b.marker) (hc : P c.marker) :
    ∀ b, consider best c = some b → P b.marker := by
  intro b h
  cases best with
  | none =>
    simp only [consider] at h
    cases h
    exact hc
  | some bb =>
    simp only [consider] at h
    by_cases hgt : c.score > bb.score
    · rw [if_pos hgt] at h; cases h; exact hc
    · rw [if_neg hgt] at h; cases h; exact hb _ rfl

/-- One (region, psm) attempt only ever installs pattern-valid markers. -/
theorem try_roi_psm_sound (ocr : Roi → Nat → List Char) (pat : List Char → Bool)
    (r : Roi) (base psm : Nat) (best : Option MarkerCand)
    (hb : ∀ b, best = some b → pat b.marker = true) :
    ∀ b, try_roi_psm ocr pat r base psm best = some b → pat b.marker = true := by
  intro b h
  unfold try_roi_psm at h
  cases hc : best_candidate_from_text pat (ocr r psm) with
  | none => rw [hc] at h; exact hb b h
  | some cand =>
    rw [hc] at h
    exact consider_marker (fun m => pat m = true) best _ hb
      (best_candidate_sound pat (ocr r psm) cand hc) b h

/-- One ROI iteration only ever installs pattern-valid markers. -/
theorem roi_step_sound (ocr : Roi → Nat → List Char) (pat : List Char → Bool)
    (r : Roi) (best : Option MarkerCand)
    (hb : ∀ b, best = some b → pat b.marker = true) :
    ∀ b, roi_step ocr pat best r = some b → pat b.marker = true := by
  intro b h
  exact try_roi_psm_sound ocr pat r 8 8 _
    (try_roi_psm_sound ocr pat r 10 10 best hb) b h

/-- The whole multi-ROI fold only ever installs pattern-valid markers. -/
theorem foldl_roi_sound (ocr : Roi → Nat → List Char) (pat : List Char → Bool)
    (l : List Roi) :
    ∀ best : Option MarkerCand, (∀ b, best = some b → pat b.marker = true) →
      ∀ b, l.foldl (roi_step ocr pat) best = some b → pat b.marker = true := by
  induction l with
  | nil => intro best hb b h; exact hb b h
  | cons r rest ih =>
    intro best hb b h
    exact ih _ (roi_step_sound ocr pat r best hb) b h

/-- Any marker reported by `detect_room_marker` (either mode) satisfies
the validity pattern. -/
theorem detect_marker_sound (ocr : Roi → Nat → List Char) (roi : Roi) (psm : Nat)
    (pat : List Char → Bool) (m : List Char)
    (h : (detect_room_marker ocr roi psm pat).2.1 = some m) : pat m = true := by
  unfold detect_room_marker at h
  split at h
  · cases h1 : best_candidate_from_text pat (ocr roi psm) with
    | some cand =>
      rw [h1] at h
      have hcm : cand = m := by simpa using h
      subst hcm
      exact best_candidate_sound pat (ocr roi psm) cand h1
    | none =>
      rw [h1] at h
      cases h2 : best_candidate_from_text pat (ocr roi 10) with
      | some cand2 =>
        rw [h2] at h
        have hcm : cand2 = m := by simpa using h
        subst hcm
        exact best_candidate_sound pat (ocr roi 10) cand2 h2
      | none => rw [h2] at h; simp at h
  · cases hf : roi_list.foldl (roi_step ocr pat) none with
    | none => rw [hf] at h; simp at h
    | some b =>
      rw [hf] at h
      have hcm : b.marker = m := by simpa using h
      subst hcm
      exact foldl_roi_sound ocr pat roi_list none (by intro b hb; cases hb) b hf

/-- C1 counterexample: with the default validity pattern `^[A-Z]{1,2}$`,
an OCR read of "AB" makes `detect_room_marker` report `has_marker = true`
with canonical marker "AB" — two DISTINCT letters, which the claim says is
never returned. -/
theorem c1_counterexample :
    (detect_room_marker (fun _ _ => ['A', 'B']) Roi.multi 8 default_room_re).1 = true ∧
    (detect_room_marker (fun _ _ => ['A', 'B']) Roi.multi 8 default_room_re).2.1 = some ['A', 'B'] ∧
    ('A' : Char) ≠ 'B' := by
  decide

/-- C1 (amended): with the default validity pattern, every marker returned
by `detect_room_marker` consists of one or two capital letters A-Z — but
the two letters need not be identical; the doubled-letter invariant is
only enforced downstream by `is_valid_marker` during segmentation. -/
theorem c1_theorem (ocr : Roi → Nat → List Char) (roi : Roi) (psm : Nat) (m : List Char)
    (hm : (detect_room_marker ocr roi psm default_room_re).2.1 = some m) :
    (m.length = 1 ∨ m.length = 2) ∧ ∀ c ∈ m, 'A' ≤ c ∧ c ≤ 'Z' := by
  have hp := detect_marker_sound ocr roi psm default_room_re m hm
  simp only [default_room_re, Bool.and_eq_true, Bool.or_eq_true, beq_iff_eq,
    List.all_eq_true, is_az, decide_eq_true_eq] at hp
  obtain ⟨hlen, hall⟩ := hp
  exact ⟨hlen, hall⟩

/-- C1 witness: a concrete page whose best OCR read is "B" yields marker
"B", which the amended theorem certifies to be one or two capitals. -/
theorem c1_witness :
    (detect_room_marker (fun _ _ => ['B']) Roi.multi 8 default_room_re).2.1 = some ['B'] ∧
    (((['B'] : List Char).length = 1 ∨ (['B'] : List Char).length = 2) ∧
      ∀ c ∈ (['B'] : List Char), 'A' ≤ c ∧ c ≤ 'Z') := by
  exact ⟨by decide, c1_theorem (fun _ _ => ['B']) Roi.multi 8 ['B'] (by decide)⟩

/-! ## Claim C5: scoring and tie-breaking of the multi-ROI marker search -/

/-- The scored candidate (if any) produced by one (region, configuration)
attempt, before comparison with the running best. -/
def try_entry (ocr : Roi → Nat → List Char) (pat : List Char → Bool)
    (r : Roi) (base psm : Nat) : Option MarkerCand :=
  match best_candidate_from_text pat (ocr r psm) with
  | none => none
  | some cand => some ⟨marker_score base cand (ocr r psm), cand, ocr r psm, r, psm⟩

/-- All scored candidates of the multi-ROI loop, in evaluation order:
for each region of `roi_list`, the psm-10 attempt then the psm-8 attempt. -/
def scored_candidates (ocr : Roi → Nat → List Char) (pat : List Char → Bool) :
    List MarkerCand :=
  (roi_list.flatMap (fun r => [try_entry ocr pat r 10 10, try_entry ocr pat r 8 8])).filterMap id

/-- Folding `consider` over an optional-candidate stream. -/
def opt_step (best : Option MarkerCand) : Option MarkerCand → Option MarkerCand
  | none => best
  | some c => consider best c

/-- Keep `b` unless the other candidate scores strictly higher. -/
def better (b : MarkerCand) : Option MarkerCand → MarkerCand
  | none => b
  | some m => if m.score > b.score then m else b

/-- The first candidate attaining the maximum score of a list (strictly
later candidates only displace the running best on a strictly greater
score). -/
def first_max : List MarkerCand → Option MarkerCand
  | [] => none
  | c :: rest =>
    match first_max rest with
    | none => some c
    | some b => if b.score > c.score then some b else some c

theorem first_max_cons (c : MarkerCand) (rest : List MarkerCand) :
    first_max (c :: rest) = some (better c (first_max rest)) := by
  cases hm : first_max rest with
  | none => simp only [first_max, hm, better]
  | some m =>
    simp only [first_max, hm, better]
    exact (apply_ite some (m.score > c.score) m c).symm

theorem try_roi_psm_eq (ocr : Roi → Nat → List Char) (pat : List Char → Bool)
    (r : Roi) (base psm : Nat) (best : Option MarkerCand) :
    try_roi_psm ocr pat r base psm best = opt_step best (try_entry ocr pat r base psm) := by
  cases h : best_candidate_from_text pat (ocr r psm) with
  | none => simp [try_roi_psm, try_entry, opt_step, h]
  | some cand => simp [try_roi_psm, try_entry, opt_step, h]

theorem foldl_opt_step_filterMap (l : List (Option MarkerCand)) :
    ∀ b : Option MarkerCand,
      l.foldl opt_step b = (l.filterMap id).foldl consider b := by
  induction l with
  | nil => intro b; rfl
  | cons e rest ih =>
    intro b
    cases e with
    | none => simpa [opt_step] using ih b
    | some c => simpa [opt_step] using ih (consider b c)

theorem roi_fold_eq (ocr : Roi → Nat → List Char) (pat : List Char → Bool)
    (l : List Roi) :
    ∀ b : Option MarkerCand,
      l.foldl (roi_step ocr pat) b =
        (l.flatMap (fun r => [try_entry ocr pat r 10 10, try_entry ocr pat r 8 8])).foldl
          opt_step b := by
  induction l with
  | nil => intro b; rfl
  | cons r rest ih =>
    intro b
    simp only [List.foldl_cons, List.flatMap_cons, List.foldl_append]
    rw [ih]
    congr 1
    simp [roi_step, try_roi_psm_eq]

theorem foldl_consider_some (l : List MarkerCand) :
    ∀ b : MarkerCand,
      l.foldl consider (some b) = some (better b (first_max l)) := by
  induction l with
  | nil => intro b; rfl
  | cons c rest ih =>
    intro b
    have hstep : consider (some b) c = if c.score > b.score then some c else some b := rfl
    rw [List.foldl_cons, hstep, first_max_cons]
    by_cases hcb : c.score > b.score
    · rw [if_pos hcb, ih c]
      cases hm : first_max rest with
      | none =>
        simp only [better]
        split_ifs <;> first | rfl | omega
      | some m =>
        simp only [better]
        split_ifs <;> first | rfl | omega
    · rw [if_neg hcb, ih b]
      cases hm : first_max rest with
      | none =>
        simp only [better]
        split_ifs <;> first | rfl | omega
      | some m =>
        simp only [better]
        split_ifs <;> first | rfl | omega

theorem foldl_consider_none (l : List MarkerCand) :
    l.foldl consider none = first_max l := by
  cases l with
  | nil => rfl
  | cons c rest =>
    have hstep : consider none c = some c := rfl
    rw [List.foldl_cons, hstep, foldl_consider_some]
    rw [first_max_cons]

theorem first_max_none_iff (l : List MarkerCand) :
    first_max l = none ↔ l = [] := by
  cases l with
  | nil => simp [first_max]
  | cons c rest => rw [first_max_cons]; simp

theorem first_max_split (l : List MarkerCand) :
    ∀ e : MarkerCand, first_max l = some e →
      ∃ l1 l2, l = l1 ++ e :: l2 ∧ (∀ x ∈ l1, x.score < e.score) ∧
        (∀ x ∈ l2, x.score ≤ e.score) := by
  induction l with
  | nil => intro e h; cases h
  | cons c rest ih =>
    intro e h
    rw [first_max_cons] at h
    cases hm : first_max rest with
    | none =>
      rw [hm] at h
      simp only [better] at h
      cases h
      have hrest : rest = [] := (first_max_none_iff rest).mp hm
      subst hrest
      exact ⟨[], [], rfl, by simp, by simp⟩
    | some m =>
      rw [hm] at h
      simp only [better] at h
      by_cases hgt : m.score > c.score
      · rw [if_pos hgt] at h
        cases h
        obtain ⟨l1, l2, heq, hl1, hl2⟩ := ih _ hm
        refine ⟨c :: l1, l2, by rw [heq, List.cons_append], ?_, hl2⟩
        intro x hx
        rcases List.mem_cons.mp hx with rfl | hx'
        · exact hgt
        · exact hl1 x hx'
      · rw [if_neg hgt] at h
        cases h
        obtain ⟨l1, l2, heq, hl1, hl2⟩ := ih _ hm
        refine ⟨[], rest, rfl, by simp, ?_⟩
        intro x hx
        have hm_le : m.score ≤ c.score := Nat.le_of_not_lt hgt
        rw [heq] at hx
        rcases List.mem_append.mp hx with hx1 | hx2
        · exact Nat.le_trans (Nat.le_of_lt (hl1 x hx1)) hm_le
        · rcases List.mem_cons.mp hx2 with rfl | hx3
          · exact hm_le
          · exact Nat.le_trans (hl2 x hx3) hm_le

theorem detect_multi_eq (ocr : Roi → Nat → List Char) (pat : List Char → Bool)
    (psm : Nat) :
    detect_room_marker ocr Roi.multi psm pat =
      (match first_max (scored_candidates ocr pat) with
       | some b => (true, some b.marker, provenance_text b)
       | none => (false, none, [])) := by
  unfold detect_room_marker
  rw [if_neg (by simp)]
  rw [roi_fold_eq, foldl_opt_step_filterMap, foldl_consider_none]
  rfl

theorem scored_candidates_psm (ocr : Roi → Nat → List Char) (pat : List Char → Bool) :
    ∀ e ∈ scored_candidates ocr pat,
      (e.psm = 10 ∧ e.score = marker_score 10 e.marker e.txt) ∨
      (e.psm = 8 ∧ e.score = marker_score 8 e.marker e.txt) := by
  intro e he
  simp only [scored_candidates, List.mem_filterMap, id_eq] at he
  obtain ⟨eo, heo, hid⟩ := he
  subst hid
  simp only [List.mem_flatMap, List.mem_cons, List.mem_singleton] at heo
  obtain ⟨r, _, hcase⟩ := heo
  rcases hcase with h10 | h8 | hfalse
  · left
    cases hb : best_candidate_from_text pat (ocr r 10) with
    | none => simp only [try_entry, hb] at h10; cases h10
    | some cand =>
      simp only [try_entry, hb] at h10
      cases h10
      exact ⟨rfl, rfl⟩
  · right
    cases hb : best_candidate_from_text pat (ocr r 8) with
    | none => simp only [try_entry, hb] at h8; cases h8
    | some cand =>
      simp only [try_entry, hb] at h8
      cases h8
      exact ⟨rfl, rfl⟩
  · cases hfalse

/-- C5: in multi-region marker detection every candidate's score uses a
higher base for the single-character configuration (psm 10, base 10) than
for the single-word configuration (psm 8, base 8); a doubled-letter
candidate receives the +2 length bonus; the noise bonus
`max(0, 5 - len(clean))` is antitone in the cleaned-text length; and the
detector returns the first candidate (in evaluation order) attaining the
maximal score, ties at the top resolved in favor of the earliest. -/
theorem c5_theorem (ocr : Roi → Nat → List Char) (pat : List Char → Bool) (psm : Nat) :
    (∀ cand txt, marker_score 8 cand txt < marker_score 10 cand txt) ∧
    (∀ base cand txt ch, cand = [ch, ch] →
      marker_score base cand txt = base + 2 + (5 - (clean_letters txt).length)) ∧
    (∀ base cand t1 t2, (clean_letters t1).length ≤ (clean_letters t2).length →
      marker_score base cand t2 ≤ marker_score base cand t1) ∧
    (∀ e ∈ scored_candidates ocr pat,
      (e.psm = 10 ∧ e.score = marker_score 10 e.marker e.txt) ∨
      (e.psm = 8 ∧ e.score = marker_score 8 e.marker e.txt)) ∧
    (scored_candidates ocr pat = [] →
      detect_room_marker ocr Roi.multi psm pat = (false, none, [])) ∧
    (∀ e, first_max (scored_candidates ocr pat) = some e →
      ∃ l1 l2, scored_candidates ocr pat = l1 ++ e :: l2 ∧
        (∀ x ∈ l1, x.score < e.score) ∧ (∀ x ∈ l2, x.score ≤ e.score) ∧
        detect_room_marker ocr Roi.multi psm pat = (true, some e.marker, provenance_text e)) := by
  refine ⟨?_, ?_, ?_, scored_candidates_psm ocr pat, ?_, ?_⟩
  · intro cand txt
    exact Nat.add_lt_add_right (Nat.add_lt_add_right (by omega) _) _
  · intro base cand txt ch hch
    subst hch
    simp [marker_score]
  · intro base cand t1 t2 hle
    simp only [marker_score]
    omega
  · intro hnil
    rw [detect_multi_eq ocr pat psm, hnil]
    rfl
  · intro e he
    obtain ⟨l1, l2, heq, hl1, hl2⟩ := first_max_split (scored_candidates ocr pat) e he
    refine ⟨l1, l2, heq, hl1, hl2, ?_⟩
    rw [detect_multi_eq ocr pat psm, he]

/-- C5 witness: with an OCR engine that reads "CC" everywhere, the winning
candidate is the left-band psm-10 read with score 15 = 10 + 2 + 3, first in
evaluation order among the maxima. -/
theorem c5_witness :
    marker_score 8 ['C'] [] < marker_score 10 ['C'] [] ∧
    (∃ l1 l2,
      scored_candidates (fun _ _ => ['C', 'C']) default_room_re =
        l1 ++ (⟨15, ['C', 'C'], ['C', 'C'], Roi.left_band, 10⟩ : MarkerCand) :: l2 ∧
      (∀ x ∈ l1, x.score < (⟨15, ['C', 'C'], ['C', 'C'], Roi.left_band, 10⟩ : MarkerCand).score) ∧
      (∀ x ∈ l2, x.score ≤ (⟨15, ['C', 'C'], ['C', 'C'], Roi.left_band, 10⟩ : MarkerCand).score) ∧
      detect_room_marker (fun _ _ => ['C', 'C']) Roi.multi 8 default_room_re =
        (true, some (⟨15, ['C', 'C'], ['C', 'C'], Roi.left_band, 10⟩ : MarkerCand).marker,
          provenance_text ⟨15, ['C', 'C'], ['C', 'C'], Roi.left_band, 10⟩)) := by
  have h := c5_theorem (fun _ _ => ['C', 'C']) default_room_re 8
  exact ⟨h.1 ['C'] [], h.2.2.2.2.2 ⟨15, ['C', 'C'], ['C', 'C'], Roi.left_band, 10⟩ (by decide)⟩

/-! ## Sequential segmentation fold (`src/scripts/room_segments_v2.py`).
One input row per page, as produced by the ordered SQL join: EFTA id,
file id, assignment (location possibly NULL, shoot possibly NULL),
`COALESCE(is_slate, FALSE)`, and the marker observation (both fields
possibly NULL after the LEFT JOIN).  Confidence values are rationals. -/

/-- One joined input row of the v2 segmentation query. -/
structure RowV2 where
  efta_id : Nat
  file_id : String
  loc : Option String
  shoot : Option Int
  is_slate : Bool
  has_marker : Option Bool
  marker : Option String
deriving DecidableEq

/-- One segment dict as built by `start_segment` / `close_cur`. -/
structure Seg where
  segment_id : Nat
  location_label : String
  shoot_index : Option Int
  marker_text : String
  start_efta_id : Nat
  start_file_id : String
  end_efta_id : Nat
  end_file_id : String
  n_files : Nat
  confidence : ℚ
  reset_reason : String
deriving DecidableEq

/-- The loop state of the v2 fold: emitted segments, the `seg_id` counter,
the open segment `cur`, and the previous page's (location, shoot). -/
structure SegState where
  segments : List Seg
  seg_id : Nat
  cur : Option Seg
  prev_loc : Option String
  prev_shoot : Option Int
deriving DecidableEq

/-- `close_cur(reason)`: append `cur` (tagged with the reset reason) to the
emitted segments, if one is open. -/
def close_cur (reason : String) (st : SegState) : SegState :=
  match st.cur with
  | none => st
  | some c =>
    { st with segments := st.segments ++ [{ c with reset_reason := reason }], cur := none }

/-- `start_segment(...)`: bump `seg_id` and open a fresh one-page segment. -/
def start_segment (loc : String) (shoot : Option Int) (marker : String)
    (efta : Nat) (fid : String) (st : SegState) : SegState :=
  { st with
    seg_id := st.seg_id + 1,
    cur := some
      { segment_id := st.seg_id + 1
        location_label := loc
        shoot_index := shoot
        marker_text := marker
        start_efta_id := efta
        start_file_id := fid
        end_efta_id := efta
        end_file_id := fid
        n_files := 1
        confidence := 0
        reset_reason := "" } }

/-- The hard-reset block at the top of the loop body: on the first row
just record (location, shoot); afterwards a location change closes any
open segment with reason `"location_change"`, else a shoot change closes
it with reason `"shoot_change"`. -/
def hard_reset (st : SegState) (loc : String) (shoot : Option Int) : SegState :=
  match st.prev_loc with
  | none => { st with prev_loc := some loc, prev_shoot := shoot }
  | some pl =>
    if loc ≠ pl then
      { close_cur "location_change" st with prev_loc := some loc, prev_shoot := shoot }
    else if shoot ≠ st.prev_shoot then
      { close_cur "shoot_change" st with prev_loc := some loc, prev_shoot := shoot }
    else st

/-- Extend the open segment `c` to the current page. -/
def extend_seg (c : Seg) (efta : Nat) (fid : String) : Seg :=
  { c with end_efta_id := efta, end_file_id := fid, n_files := c.n_files + 1 }

/-- One iteration of the v2 loop body for one row. -/
def stepV2 (keep_unmarked : Bool) (st : SegState) (row : RowV2) : SegState :=
  let loc := row.loc.getD "UNKNOWN"
  let st1 := hard_reset st loc row.shoot
  if row.is_slate then close_cur "slate" st1
  else
    let new_marker : Option String :=
      if row.has_marker = some true ∧ is_valid_marker row.marker = true then row.marker
      else none
    match new_marker with
    | some nm =>
      match st1.cur with
      | none => start_segment loc row.shoot nm row.efta_id row.file_id st1
      | some c =>
        if nm ≠ c.marker_text then
          start_segment loc row.shoot nm row.efta_id row.file_id
            (close_cur "marker_change" st1)
        else
          { st1 with cur := some (extend_seg c row.efta_id row.file_id) }
    | none =>
      match st1.cur with
      | some c => { st1 with cur := some (extend_seg c row.efta_id row.file_id) }
      | none =>
        if keep_unmarked then
          start_segment loc row.shoot "UNMARKED" row.efta_id row.file_id st1
        else st1

/-- The initial loop state. -/
def initV2 : SegState :=
  { segments := [], seg_id := 0, cur := none, prev_loc := none, prev_shoot := none }

/-- The full fold over the ordered page rows, including the final
`close_cur("eof")`: the list of emitted segments (before the `min_run` /
UNMARKED keep-filter). -/
def runV2 (keep_unmarked : Bool) (rows : List RowV2) : List Seg :=
  (close_cur "eof" (rows.foldl (stepV2 keep_unmarked) initV2)).segments

/-- The confidence-by-file-count post-pass (`confidence_for`). -/
def confidence_for (n : Nat) : ℚ :=
  if n ≥ 20 then 92 / 100
  else if n ≥ 8 then 90 / 100
  else if n ≥ 3 then 80 / 100
  else 60 / 100

/-! ## Claims C8 and C9: single-step behaviour of the v2 loop body -/

/-- After `close_cur` no segment is open. -/
theorem close_cur_cur_none (r : String) (st : SegState) :
    (close_cur r st).cur = none := by
  cases hc : st.cur with
  | none => simp [close_cur, hc]
  | some c => simp [close_cur, hc]

/-- The hard-reset block either leaves segments and `cur` unchanged, or —
when `cur` was open and location/shoot changed — closes `cur` into the
emitted list (with some reason) leaving no open segment. -/
theorem hard_reset_eq (st : SegState) (loc : String) (shoot : Option Int) :
    hard_reset st loc shoot = { st with prev_loc := some loc, prev_shoot := shoot } ∨
    hard_reset st loc shoot = st ∨
    (∃ reason, hard_reset st loc shoot =
      { close_cur reason st with prev_loc := some loc, prev_shoot := shoot }) := by
  cases hp : st.prev_loc with
  | none => left; simp [hard_reset, hp]
  | some pl =>
    by_cases h1 : loc ≠ pl
    · right; right
      exact ⟨"location_change", by simp [hard_reset, hp, h1]⟩
    · by_cases h2 : shoot ≠ st.prev_shoot
      · right; right
        exact ⟨"shoot_change", by simp [hard_reset, hp, h1, h2]⟩
      · right; left
        simp [hard_reset, hp, h1, h2]

theorem hard_reset_spec (st : SegState) (loc : String) (shoot : Option Int) :
    ((hard_reset st loc shoot).segments = st.segments ∧
      (hard_reset st loc shoot).cur = st.cur) ∨
    (∃ reason c, st.cur = some c ∧ (hard_reset st loc shoot).cur = none ∧
      (hard_reset st loc shoot).segments =
        st.segments ++ [{ c with reset_reason := reason }]) := by
  rcases hard_reset_eq st loc shoot with he | he | ⟨reason, he⟩
  · left; rw [he]; exact ⟨rfl, rfl⟩
  · left; rw [he]; exact ⟨rfl, rfl⟩
  · cases hc : st.cur with
    | none => left; rw [he]; constructor <;> simp [close_cur, hc]
    | some c =>
      right
      refine ⟨reason, c, rfl, ?_, ?_⟩
      · rw [he]; simp [close_cur, hc]
      · rw [he]; simp [close_cur, hc]

/-- C8: a page flagged `is_slate` closes whatever segment is still open
after the location/shoot reset step, with reset reason "slate"; the slate
page itself joins no segment: afterwards no segment is open, and the
emitted segments' (end id, file count) pairs are exactly those already
present in the incoming state (closing only stamps a reason, it never
advances an end id or a file count to the slate page). -/
theorem c8_theorem (keep : Bool) (st : SegState) (row : RowV2)
    (hs : row.is_slate = true) :
    (stepV2 keep st row).cur = none ∧
    ((hard_reset st (row.loc.getD "UNKNOWN") row.shoot).cur = none →
      (stepV2 keep st row).segments =
        (hard_reset st (row.loc.getD "UNKNOWN") row.shoot).segments) ∧
    (∀ c, (hard_reset st (row.loc.getD "UNKNOWN") row.shoot).cur = some c →
      (stepV2 keep st row).segments =
        (hard_reset st (row.loc.getD "UNKNOWN") row.shoot).segments ++
          [{ c with reset_reason := "slate" }]) ∧
    (stepV2 keep st row).segments.map (fun s => (s.end_efta_id, s.n_files)) =
      st.segments.map (fun s => (s.end_efta_id, s.n_files)) ++
        (match st.cur with
         | none => []
         | some c => [(c.end_efta_id, c.n_files)]) := by
  have hstep : stepV2 keep st row =
      close_cur "slate" (hard_reset st (row.loc.getD "UNKNOWN") row.shoot) := by
    simp only [stepV2, hs, if_true]
  refine ⟨by rw [hstep]; exact close_cur_cur_none _ _, ?_, ?_, ?_⟩
  · intro hnone
    rw [hstep]
    simp [close_cur, hnone]
  · intro c hc
    rw [hstep]
    simp [close_cur, hc]
  · rw [hstep]
    rcases hard_reset_spec st (row.loc.getD "UNKNOWN") row.shoot with
      ⟨hseg, hcur⟩ | ⟨reason, c, hstc, hcur, hseg⟩
    · cases hc : st.cur with
      | none =>
        rw [hc] at hcur
        simp [close_cur, hcur, hseg, hc]
      | some c =>
        rw [hc] at hcur
        simp [close_cur, hcur, hseg, hc]
    · rw [hstc]
      simp [close_cur, hcur, hseg]

/-- C9: a non-slate page carrying no valid marker extends the currently
open segment (end id advances to that page, file count increments); when
no segment is open it opens an "UNMARKED" placeholder only if
`keep_unmarked` was requested, and otherwise changes nothing beyond the
reset bookkeeping. -/
theorem c9_theorem (keep : Bool) (st : SegState) (row : RowV2)
    (hs : row.is_slate = false)
    (hnm : ¬ (row.has_marker = some true ∧ is_valid_marker row.marker = true)) :
    (∀ c, (hard_reset st (row.loc.getD "UNKNOWN") row.shoot).cur = some c →
      stepV2 keep st row =
        { hard_reset st (row.loc.getD "UNKNOWN") row.shoot with
            cur := some (extend_seg c row.efta_id row.file_id) }) ∧
    ((hard_reset st (row.loc.getD "UNKNOWN") row.shoot).cur = none →
      (keep = true →
        stepV2 keep st row =
          start_segment (row.loc.getD "UNKNOWN") row.shoot "UNMARKED" row.efta_id row.file_id
            (hard_reset st (row.loc.getD "UNKNOWN") row.shoot)) ∧
      (keep = false → stepV2 keep st row =
        hard_reset st (row.loc.getD "UNKNOWN") row.shoot)) := by
  constructor
  · intro c hc
    simp [stepV2, hs, hnm, hc]
  · intro hc
    constructor
    · intro hk
      subst hk
      simp [stepV2, hs, hnm, hc]
    · intro hk
      subst hk
      simp [stepV2, hs, hnm, hc]

/-- A sample open segment for the step witnesses (marker "B", pages 1-5). -/
def sampleSeg : Seg :=
  { segment_id := 1, location_label := "L1", shoot_index := some 1, marker_text := "B",
    start_efta_id := 1, start_file_id := "EFTA00000001",
    end_efta_id := 5, end_file_id := "EFTA00000005",
    n_files := 5, confidence := 0, reset_reason := "" }

/-- A sample loop state with `sampleSeg` open. -/
def sampleStOpen : SegState :=
  { segments := [], seg_id := 1, cur := some sampleSeg,
    prev_loc := some "L1", prev_shoot := some 1 }

/-- C8 witness: a slate page (same location/shoot) closes the open "B"
segment with reason "slate" and leaves no open segment; the closed
segment's end id (5) and file count (5) are untouched. -/
theorem c8_witness :
    (⟨6, "EFTA00000006", some "L1", some 1, true, none, none⟩ : RowV2).is_slate = true ∧
    (stepV2 false sampleStOpen ⟨6, "EFTA00000006", some "L1", some 1, true, none, none⟩).cur
      = none ∧
    (stepV2 false sampleStOpen ⟨6, "EFTA00000006", some "L1", some 1, true, none, none⟩).segments.map
        (fun s => (s.end_efta_id, s.n_files)) =
      sampleStOpen.segments.map (fun s => (s.end_efta_id, s.n_files)) ++ [(5, 5)] := by
  have h := c8_theorem false sampleStOpen
    ⟨6, "EFTA00000006", some "L1", some 1, true, none, none⟩ rfl
  exact ⟨rfl, h.1, h.2.2.2⟩

/-- C9 witness: a non-slate, marker-less page extends the open "B" segment
to end id 7 with file count 6. -/
theorem c9_witness :
    (⟨7, "EFTA00000007", some "L1", some 1, false, some false, none⟩ : RowV2).is_slate = false ∧
    stepV2 false sampleStOpen ⟨7, "EFTA00000007", some "L1", some 1, false, some false, none⟩ =
      { hard_reset sampleStOpen "L1" (some 1) with
          cur := some (extend_seg sampleSeg 7 "EFTA00000007") } := by
  have h := c9_theorem false sampleStOpen
    ⟨7, "EFTA00000007", some "L1", some 1, false, some false, none⟩ rfl (by decide)
  exact ⟨rfl, h.1 sampleSeg (by decide)⟩

/-! ## Claim C2: emitted v2 segments have pairwise disjoint ID intervals -/

/-- A segment's interval is well formed: start ≤ end. -/
def seg_wf (s : Seg) : Prop := s.start_efta_id ≤ s.end_efta_id

/-- Loop invariant of the v2 fold, relative to the rows still to process:
emitted segments are well-formed, strictly ordered (each ends before the
next starts), all of them end before the open segment starts, the open
segment is well-formed, and every recorded end id precedes every
still-unprocessed page id. -/
def st_inv (st : SegState) (rest : List RowV2) : Prop :=
  (∀ s ∈ st.segments, seg_wf s) ∧
  st.segments.Pairwise (fun a b => a.end_efta_id < b.start_efta_id) ∧
  (∀ c, st.cur = some c → seg_wf c ∧
    (∀ s ∈ st.segments, s.end_efta_id < c.start_efta_id) ∧
    (∀ r ∈ rest, c.end_efta_id < r.efta_id)) ∧
  (∀ s ∈ st.segments, ∀ r ∈ rest, s.end_efta_id < r.efta_id)

theorem st_inv_drop (st : SegState) (row : RowV2) (rest : List RowV2)
    (h : st_inv st (row :: rest)) : st_inv st rest := by
  obtain ⟨h1, h2, h3, h4⟩ := h
  refine ⟨h1, h2, ?_, ?_⟩
  · intro c hc
    obtain ⟨a, b, d⟩ := h3 c hc
    exact ⟨a, b, fun r hr => d r (List.mem_cons_of_mem _ hr)⟩
  · intro s hs r hr
    exact h4 s hs r (List.mem_cons_of_mem _ hr)

theorem close_cur_inv (reason : String) (st : SegState) (rest : List RowV2)
    (h : st_inv st rest) : st_inv (close_cur reason st) rest := by
  obtain ⟨hwf, hpw, hcur, hbound⟩ := h
  cases hc : st.cur with
  | none =>
    have he : close_cur reason st = st := by simp [close_cur, hc]
    rw [he]
    exact ⟨hwf, hpw, hcur, hbound⟩
  | some c =>
    have he : close_cur reason st =
        { st with segments := st.segments ++ [{ c with reset_reason := reason }],
                  cur := none } := by
      simp [close_cur, hc]
    rw [he]
    obtain ⟨hwfc, hlt, hrest⟩ := hcur c hc
    refine ⟨?_, ?_, ?_, ?_⟩
    · intro s hs
      rcases List.mem_append.mp hs with hs1 | hs2
      · exact hwf s hs1
      · have : s = { c with reset_reason := reason } := List.mem_singleton.mp hs2
        subst this
        exact hwfc
    · rw [List.pairwise_append]
      refine ⟨hpw, List.pairwise_singleton _ _, ?_⟩
      intro a ha b hb
      have : b = { c with reset_reason := reason } := List.mem_singleton.mp hb
      subst this
      exact hlt a ha
    · intro c' hc'
      cases hc'
    · intro s hs r hr
      rcases List.mem_append.mp hs with hs1 | hs2
      · exact hbound s hs1 r hr
      · have : s = { c with reset_reason := reason } := List.mem_singleton.mp hs2
        subst this
        exact hrest r hr

theorem hard_reset_inv (st : SegState) (loc : String) (shoot : Option Int)
    (rest : List RowV2) (h : st_inv st rest) :
    st_inv (hard_reset st loc shoot) rest := by
  rcases hard_reset_eq st loc shoot with he | he | ⟨reason, he⟩
  · rw [he]; exact h
  · rw [he]; exact h
  · rw [he]; exact close_cur_inv reason st rest h

theorem start_segment_inv (loc : String) (shoot : Option Int) (marker : String)
    (efta : Nat) (fid : String) (st1 : SegState) (rest : List RowV2)
    (hinv : st_inv st1 rest)
    (hseg : ∀ s ∈ st1.segments, s.end_efta_id < efta)
    (hrest : ∀ r ∈ rest, efta < r.efta_id) :
    st_inv (start_segment loc shoot marker efta fid st1) rest := by
  obtain ⟨hwf, hpw, _, hbound⟩ := hinv
  refine ⟨hwf, hpw, ?_, hbound⟩
  intro c hc
  simp only [start_segment] at hc
  cases hc
  exact ⟨Nat.le_refl _, hseg, hrest⟩

theorem extend_inv (st1 : SegState) (c : Seg) (efta : Nat) (fid : String)
    (rest : List RowV2) (hinv : st_inv st1 rest) (hc : st1.cur = some c)
    (hlt : c.end_efta_id < efta)
    (hrest : ∀ r ∈ rest, efta < r.efta_id) :
    st_inv { st1 with cur := some (extend_seg c efta fid) } rest := by
  obtain ⟨hwf, hpw, hcur, hbound⟩ := hinv
  obtain ⟨hwfc, hsegs, _⟩ := hcur c hc
  refine ⟨hwf, hpw, ?_, hbound⟩
  intro c' hc'
  have hce : extend_seg c efta fid = c' := by simpa using hc'
  subst hce
  exact ⟨Nat.le_of_lt (Nat.lt_of_le_of_lt hwfc hlt), hsegs, hrest⟩

theorem stepV2_inv (keep : Bool) (st : SegState) (row : RowV2) (rest : List RowV2)
    (h : st_inv st (row :: rest))
    (hsorted : ∀ r ∈ rest, row.efta_id < r.efta_id) :
    st_inv (stepV2 keep st row) rest := by
  have hrow : row ∈ row :: rest := List.mem_cons_self _ _
  have h1 : st_inv (hard_reset st (row.loc.getD "UNKNOWN") row.shoot) (row :: rest) :=
    hard_reset_inv st _ _ _ h
  have h1d : st_inv (hard_reset st (row.loc.getD "UNKNOWN") row.shoot) rest :=
    st_inv_drop _ _ _ h1
  have hsegbound : ∀ s ∈ (hard_reset st (row.loc.getD "UNKNOWN") row.shoot).segments,
      s.end_efta_id < row.efta_id := fun s hs => h1.2.2.2 s hs row hrow
  by_cases hs : row.is_slate = true
  · have hstep : stepV2 keep st row =
        close_cur "slate" (hard_reset st (row.loc.getD "UNKNOWN") row.shoot) := by
      simp only [stepV2, hs, if_true]
    rw [hstep]
    exact close_cur_inv _ _ _ h1d
  · have hs' : row.is_slate = false := by
      revert hs; cases row.is_slate <;> simp
    by_cases hm : row.has_marker = some true ∧ is_valid_marker row.marker = true
    · obtain ⟨hm1, hm2⟩ := hm
      cases hmk : row.marker with
      | none =>
        rw [hmk] at hm2
        exact absurd hm2 (by simp [is_valid_marker])
      | some nm =>
        rw [hmk] at hm2
        cases hc : (hard_reset st (row.loc.getD "UNKNOWN") row.shoot).cur with
        | none =>
          have hstep : stepV2 keep st row =
              start_segment (row.loc.getD "UNKNOWN") row.shoot nm row.efta_id row.file_id
                (hard_reset st (row.loc.getD "UNKNOWN") row.shoot) := by
            simp [stepV2, hs', hm1, hm2, hmk, hc]
          rw [hstep]
          exact start_segment_inv _ _ _ _ _ _ _ h1d hsegbound hsorted
        | some c =>
          have hcend : c.end_efta_id < row.efta_id :=
            (h1.2.2.1 c hc).2.2 row hrow
          by_cases hne : nm ≠ c.marker_text
          · have hstep : stepV2 keep st row =
                start_segment (row.loc.getD "UNKNOWN") row.shoot nm row.efta_id row.file_id
                  (close_cur "marker_change"
                    (hard_reset st (row.loc.getD "UNKNOWN") row.shoot)) := by
              simp [stepV2, hs', hm1, hm2, hmk, hc, hne]
            rw [hstep]
            have hclosed := close_cur_inv "marker_change" _ _ h1d
            have hce : (close_cur "marker_change"
                (hard_reset st (row.loc.getD "UNKNOWN") row.shoot)).segments =
                (hard_reset st (row.loc.getD "UNKNOWN") row.shoot).segments ++
                  [{ c with reset_reason := "marker_change" }] := by
              simp [close_cur, hc]
            refine start_segment_inv _ _ _ _ _ _ _ hclosed ?_ hsorted
            rw [hce]
            intro s hs2
            rcases List.mem_append.mp hs2 with hs3 | hs4
            · exact hsegbound s hs3
            · have : s = { c with reset_reason := "marker_change" } :=
                List.mem_singleton.mp hs4
              subst this
              exact hcend
          · have hstep : stepV2 keep st row =
                { hard_reset st (row.loc.getD "UNKNOWN") row.shoot with
                    cur := some (extend_seg c row.efta_id row.file_id) } := by
              simp [stepV2, hs', hm1, hm2, hmk, hc, hne]
            rw [hstep]
            exact extend_inv _ c _ _ _ h1d hc hcend hsorted
    · have hnmk : (if row.has_marker = some true ∧ is_valid_marker row.marker = true
          then row.marker else none) = none := if_neg hm
      cases hc : (hard_reset st (row.loc.getD "UNKNOWN") row.shoot).cur with
      | some c =>
        have hcend : c.end_efta_id < row.efta_id :=
          (h1.2.2.1 c hc).2.2 row hrow
        have hstep : stepV2 keep st row =
            { hard_reset st (row.loc.getD "UNKNOWN") row.shoot with
                cur := some (extend_seg c row.efta_id row.file_id) } := by
          simp [stepV2, hs', hnmk, hc]
        rw [hstep]
        exact extend_inv _ c _ _ _ h1d hc hcend hsorted
      | none =>
        by_cases hk : keep = true
        · have hstep : stepV2 keep st row =
              start_segment (row.loc.getD "UNKNOWN") row.shoot "UNMARKED" row.efta_id
                row.file_id (hard_reset st (row.loc.getD "UNKNOWN") row.shoot) := by
            simp [stepV2, hs', hnmk, hc, hk]
          rw [hstep]
          exact start_segment_inv _ _ _ _ _ _ _ h1d hsegbound hsorted
        · have hk' : keep = false := by
            revert hk; cases keep <;> simp
          have hstep : stepV2 keep st row =
              hard_reset st (row.loc.getD "UNKNOWN") row.shoot := by
            simp [stepV2, hs', hnmk, hc, hk']
          rw [hstep]
          exact h1d

theorem foldV2_inv (keep : Bool) :
    ∀ (rows : List RowV2) (st : SegState),
      st_inv st rows → rows.Pairwise (fun a b => a.efta_id < b.efta_id) →
      st_inv (rows.foldl (stepV2 keep) st) [] := by
  intro rows
  induction rows with
  | nil => intro st h _; exact h
  | cons row rest ih =>
    intro st h hpw
    obtain ⟨hsorted, hpw'⟩ := List.pairwise_cons.mp hpw
    exact ih _ (stepV2_inv keep st row rest h hsorted) hpw'

/-- C2: for strictly increasing page IDs, the segments emitted by the v2
segmentation fold have pairwise disjoint [start, end] ID intervals — no
page ID lies inside the ranges of two different segments (each segment is
also well-formed, start ≤ end). -/
theorem c2_theorem (keep : Bool) (rows : List RowV2)
    (hsorted : rows.Pairwise (fun a b => a.efta_id < b.efta_id)) :
    (∀ s ∈ runV2 keep rows, seg_wf s) ∧
    (runV2 keep rows).Pairwise (fun s t => ∀ x : Nat,
      ¬ (s.start_efta_id ≤ x ∧ x ≤ s.end_efta_id ∧
         t.start_efta_id ≤ x ∧ x ≤ t.end_efta_id)) := by
  have h0 : st_inv initV2 rows := by
    refine ⟨?_, ?_, ?_, ?_⟩ <;> simp [initV2]
  have h1 := foldV2_inv keep rows initV2 h0 hsorted
  have h2 := close_cur_inv "eof" _ [] h1
  obtain ⟨hwf, hpw, _, _⟩ := h2
  refine ⟨hwf, ?_⟩
  exact hpw.imp (fun hab x hx => by omega)

/-- C2 witness: three strictly increasing pages with markers B, C, none
yield two segments [1,1] and [2,3] with disjoint ID intervals. -/
theorem c2_witness :
    ([⟨1, "F1", some "L1", some 1, false, some true, some "B"⟩,
      ⟨2, "F2", some "L1", some 1, false, some true, some "C"⟩,
      ⟨3, "F3", some "L1", some 1, false, some false, none⟩] : List RowV2).Pairwise
        (fun a b => a.efta_id < b.efta_id) ∧
    ((∀ s ∈ runV2 false
        [⟨1, "F1", some "L1", some 1, false, some true, some "B"⟩,
         ⟨2, "F2", some "L1", some 1, false, some true, some "C"⟩,
         ⟨3, "F3", some "L1", some 1, false, some false, none⟩], seg_wf s) ∧
      (runV2 false
        [⟨1, "F1", some "L1", some 1, false, some true, some "B"⟩,
         ⟨2, "F2", some "L1", some 1, false, some true, some "C"⟩,
         ⟨3, "F3", some "L1", some 1, false, some false, none⟩]).Pairwise
        (fun s t => ∀ x : Nat,
          ¬ (s.start_efta_id ≤ x ∧ x ≤ s.end_efta_id ∧
             t.start_efta_id ≤ x ∧ x ≤ t.end_efta_id))) := by
  constructor
  · decide
  · exact c2_theorem false _ (by decide)

/-! ## Keypoint similarity scoring (`src/scripts/room_graph_ransac.py`).
ORB descriptors are binary vectors compared by Hamming distance; they are
modelled as `List Bool`.  Keypoint coordinates are abstract points.  The
external `cv2.findHomography(..., RANSAC, 5.0)` call is abstracted as an
oracle from the two matched point lists to an optional inlier mask;
a `None` mask models a failed fit.  The exact float ratio test
`m.distance < 0.75 * n.distance` over integer Hamming distances is
`4 * dm < 3 * dn`.  A Python runtime error (tuple unpacking when a knn
entry has fewer than 2 neighbours, or an out-of-range keypoint index) is
modelled as result `none`. -/

/-- A binary (ORB) descriptor. -/
def Desc : Type := List Bool

/-- A keypoint location (`kp.pt`). -/
def Pt : Type := Int × Int

/-- Hamming distance between two binary descriptors. -/
def hamming (a b : Desc) : Nat :=
  (List.zipWith (fun x y => x != y) a b).count true

/-- One ratio-test-surviving match, as in `cv2.DMatch`. -/
structure DMatch where
  queryIdx : Nat
  trainIdx : Nat
  distance : Nat
deriving DecidableEq

/-- The two smallest (distance, index) entries of a list, ties resolved in
favour of the earlier index (stable two-element selection, as the
brute-force matcher's distance sort). -/
def best2 : List (Nat × Nat) → Option ((Nat × Nat) × (Nat × Nat))
  | [] => none
  | [_] => none
  | a :: b :: rest =>
    some (rest.foldl
      (fun p c =>
        if c.1 < p.1.1 then (c, p.1)
        else if c.1 < p.2.1 then (p.1, c)
        else p)
      (if a.1 ≤ b.1 then (a, b) else (b, a)))

/-- The two nearest neighbours of query descriptor `q` in the train set
`d2` (`bf.knnMatch(..., k=2)` for one query row). -/
def two_nn (d2 : List Desc) (q : Desc) : Option ((Nat × Nat) × (Nat × Nat)) :=
  best2 (d2.enum.map (fun p => (hamming q p.2, p.1)))

/-- The `good` list: for each query descriptor take its two nearest train
neighbours and keep the best as a match iff `m.distance < 0.75 * n.distance`. -/
def good_matches (d1 d2 : List Desc) : List DMatch :=
  d1.enum.filterMap (fun p =>
    match two_nn d2 p.2 with
    | none => none
    | some ((dm, jm), (dn, _)) =>
      if 4 * dm < 3 * dn then some ⟨p.1, jm, dm⟩ else none)

/-- `ransac_inliers(kp1, des1, kp2, des2)`: 0 when either descriptor set
is `None`; 0 when fewer than 12 matches survive the ratio test; otherwise
the oracle's inlier-mask count, 0 on a `None` mask.  `none` models the
Python crashes (knn rows shorter than 2, keypoint index out of range). -/
def ransac_inliers (oracle : List Pt → List Pt → Option (List Bool))
    (kp1 : List Pt) (des1 : Option (List Desc))
    (kp2 : List Pt) (des2 : Option (List Desc)) : Option Nat :=
  match des1, des2 with
  | none, _ => some 0
  | _, none => some 0
  | some d1, some d2 =>
    if d1.length ≠ 0 ∧ d2.length < 2 then none
    else
      let good := good_matches d1 d2
      if good.length < 12 then some 0
      else if good.all (fun mch => mch.queryIdx < kp1.length) &&
              good.all (fun mch => mch.trainIdx < kp2.length) then
        let pts1 := good.map (fun mch => kp1.getD mch.queryIdx (0, 0))
        let pts2 := good.map (fun mch => kp2.getD mch.trainIdx (0, 0))
        match oracle pts1 pts2 with
        | none => some 0
        | some mask => some (mask.count true)
      else none

/-- Python's `if limit_pairs and pairs > limit_pairs`: `None` and `0` are
falsy. -/
def lim_hit : Option Nat → Nat → Bool
  | none, _ => false
  | some l, pairs => decide (l ≠ 0) && decide (pairs > l)

/-- Inner loop of `build_graph` (`for j in range(i+1, len(names))`): one
fixed first image `a` against the remaining names; returns the updated
edge list, pair counter, and whether the pair budget stopped the scan.
`none` propagates a scorer crash. -/
def graph_inner {α : Type} (oracle : List Pt → List Pt → Option (List Bool))
    (kps : α → List Pt) (feats : α → Option (List Desc)) (thr : Nat)
    (lim : Option Nat) (a : α) :
    List α → Nat → List (α × α × Nat) → Option (List (α × α × Nat) × Nat × Bool)
  | [], pairs, acc => some (acc, pairs, false)
  | b :: rest, pairs, acc =>
    if lim_hit lim (pairs + 1) then some (acc, pairs + 1, true)
    else
      match ransac_inliers oracle (kps a) (feats a) (kps b) (feats b) with
      | none => none
      | some inl =>
        graph_inner oracle kps feats thr lim a rest (pairs + 1)
          (if thr ≤ inl then acc ++ [(a, b, inl)] else acc)

/-- Outer loop of `build_graph` (`for i in range(len(names))`). -/
def graph_outer {α : Type} (oracle : List Pt → List Pt → Option (List Bool))
    (kps : α → List Pt) (feats : α → Option (List Desc)) (thr : Nat)
    (lim : Option Nat) :
    List α → Nat → List (α × α × Nat) → Option (List (α × α × Nat))
  | [], _, acc => some acc
  | a :: rest, pairs, acc =>
    match graph_inner oracle kps feats thr lim a rest pairs acc with
    | none => none
    | some (acc', pairs', stopped) =>
      if stopped then some acc' else graph_outer oracle kps feats thr lim rest pairs' acc'

/-- `build_graph(names, kps, feats, inlier_threshold=18, limit_pairs=None)`
as its weighted undirected edge list: one node per name, and an edge
`(a, b, inl)` for each evaluated pair (first-listed image first) whose
inlier count reaches the threshold. -/
def build_graph {α : Type} (oracle : List Pt → List Pt → Option (List Bool))
    (kps : α → List Pt) (feats : α → Option (List Desc)) (names : List α)
    (thr : Nat) (lim : Option Nat) : Option (List (α × α × Nat)) :=
  graph_outer oracle kps feats thr lim names 0 []

/-! ## Claims C3 and C6 -/

theorem graph_inner_spec {α : Type} (oracle : List Pt → List Pt → Option (List Bool))
    (kps : α → List Pt) (feats : α → Option (List Desc)) (thr : Nat)
    (lim : Option Nat) (a : α) (bs : List α) :
    ∀ (pairs : Nat) (acc out : List (α × α × Nat)) (pairs' : Nat) (stopped : Bool),
      graph_inner oracle kps feats thr lim a bs pairs acc = some (out, pairs', stopped) →
      (∀ e ∈ acc, ransac_inliers oracle (kps e.1) (feats e.1) (kps e.2.1) (feats e.2.1) =
          some e.2.2 ∧ thr ≤ e.2.2) →
      ∀ e ∈ out, ransac_inliers oracle (kps e.1) (feats e.1) (kps e.2.1) (feats e.2.1) =
          some e.2.2 ∧ thr ≤ e.2.2 := by
  induction bs with
  | nil =>
    intro pairs acc out pairs' stopped h hacc
    simp only [graph_inner] at h
    cases h
    exact hacc
  | cons b rest ih =>
    intro pairs acc out pairs' stopped h hacc
    simp only [graph_inner] at h
    by_cases hl : lim_hit lim (pairs + 1) = true
    · rw [if_pos hl] at h
      cases h
      exact hacc
    · rw [if_neg hl] at h
      cases hr : ransac_inliers oracle (kps a) (feats a) (kps b) (feats b) with
      | none => rw [hr] at h; cases h
      | some inl =>
        rw [hr] at h
        refine ih _ _ _ _ _ h ?_
        intro e he
        by_cases ht : thr ≤ inl
        · rw [if_pos ht] at he
          rcases List.mem_append.mp he with he1 | he2
          · exact hacc e he1
          · have : e = (a, b, inl) := List.mem_singleton.mp he2
            subst this
            exact ⟨hr, ht⟩
        · rw [if_neg ht] at he
          exact hacc e he

theorem graph_outer_spec {α : Type} (oracle : List Pt → List Pt → Option (List Bool))
    (kps : α → List Pt) (feats : α → Option (List Desc)) (thr : Nat)
    (lim : Option Nat) (names : List α) :
    ∀ (pairs : Nat) (acc edges : List (α × α × Nat)),
      graph_outer oracle kps feats thr lim names pairs acc = some edges →
      (∀ e ∈ acc, ransac_inliers oracle (kps e.1) (feats e.1) (kps e.2.1) (feats e.2.1) =
          some e.2.2 ∧ thr ≤ e.2.2) →
      ∀ e ∈ edges, ransac_inliers oracle (kps e.1) (feats e.1) (kps e.2.1) (feats e.2.1) =
          some e.2.2 ∧ thr ≤ e.2.2 := by
  induction names with
  | nil =>
    intro pairs acc edges h hacc
    simp only [graph_outer] at h
    cases h
    exact hacc
  | cons a rest ih =>
    intro pairs acc edges h hacc
    cases hi : graph_inner oracle kps feats thr lim a rest pairs acc with
    | none =>
      simp only [graph_outer, hi] at h
      exact absurd h (by simp)
    | some out3 =>
      obtain ⟨acc', pairs', stopped⟩ := out3
      simp only [graph_outer, hi] at h
      have hacc' := graph_inner_spec oracle kps feats thr lim a rest pairs acc acc'
        pairs' stopped hi hacc
      by_cases hstop : stopped = true
      · rw [if_pos hstop] at h
        cases h
        exact hacc'
      · rw [if_neg hstop] at h
        exact ih _ _ _ h hacc'

theorem build_graph_edges_spec {α : Type} (oracle : List Pt → List Pt → Option (List Bool))
    (kps : α → List Pt) (feats : α → Option (List Desc)) (names : List α)
    (thr : Nat) (lim : Option Nat) (edges : List (α × α × Nat))
    (h : build_graph oracle kps feats names thr lim = some edges) :
    ∀ e ∈ edges, ransac_inliers oracle (kps e.1) (feats e.1) (kps e.2.1) (feats e.2.1) =
        some e.2.2 ∧ thr ≤ e.2.2 :=
  graph_outer_spec oracle kps feats thr lim names 0 [] edges h (by intro e he; cases he)

theorem best2_fold_mem (l : List (Nat × Nat)) :
    ∀ (rest : List (Nat × Nat)) (p : (Nat × Nat) × (Nat × Nat)),
      p.1 ∈ l → p.2 ∈ l → (∀ c ∈ rest, c ∈ l) →
      (rest.foldl
        (fun p c =>
          if c.1 < p.1.1 then (c, p.1)
          else if c.1 < p.2.1 then (p.1, c)
          else p) p).1 ∈ l ∧
      (rest.foldl
        (fun p c =>
          if c.1 < p.1.1 then (c, p.1)
          else if c.1 < p.2.1 then (p.1, c)
          else p) p).2 ∈ l := by
  intro rest
  induction rest with
  | nil => intro p h1 h2 _; exact ⟨h1, h2⟩
  | cons c cs ih =>
    intro p h1 h2 hall
    have hc : c ∈ l := hall c (List.mem_cons_self _ _)
    have hall' : ∀ x ∈ cs, x ∈ l := fun x hx => hall x (List.mem_cons_of_mem _ hx)
    simp only [List.foldl_cons]
    refine ih _ ?_ ?_ hall'
    · split_ifs <;> first | exact hc | exact h1 | exact h2
    · split_ifs <;> first | exact hc | exact h1 | exact h2

theorem best2_mem (l : List (Nat × Nat)) (p : (Nat × Nat) × (Nat × Nat))
    (h : best2 l = some p) : p.1 ∈ l ∧ p.2 ∈ l := by
  rcases l with _ | ⟨x, _ | ⟨y, rest⟩⟩
  · cases h
  · cases h
  · simp only [best2] at h
    cases h
    refine best2_fold_mem (x :: y :: rest) rest _ ?_ ?_ ?_
    · split_ifs <;> simp
    · split_ifs <;> simp
    · intro c hc
      exact List.mem_cons_of_mem _ (List.mem_cons_of_mem _ hc)

theorem enum_fst_lt {β : Type} (l : List β) (i : Nat) (a : β)
    (h : (i, a) ∈ l.enum) : i < l.length := by
  have h2 := List.mem_enum_iff_get?.mp h
  obtain ⟨hlt, _⟩ := List.get?_eq_some.mp h2
  exact hlt

theorem two_nn_train_bound (d2 : List Desc) (q : Desc) (dm jm dn jn : Nat)
    (h : two_nn d2 q = some ((dm, jm), (dn, jn))) : jm < d2.length := by
  have hmem := (best2_mem _ _ h).1
  simp only [List.mem_map] at hmem
  obtain ⟨pp, hp, heq⟩ := hmem
  have hj : pp.1 = jm := congrArg Prod.snd heq
  obtain ⟨i, b⟩ := pp
  have hi : i < d2.length := enum_fst_lt d2 i b hp
  simpa [← hj] using hi

theorem good_matches_bounds (d1 d2 : List Desc) :
    ∀ mch ∈ good_matches d1 d2, mch.queryIdx < d1.length ∧ mch.trainIdx < d2.length := by
  intro mch hm
  simp only [good_matches, List.mem_filterMap] at hm
  obtain ⟨pp, hp, heq⟩ := hm
  cases h2 : two_nn d2 pp.2 with
  | none =>
    simp only [h2] at heq
    exact absurd heq (by simp)
  | some pr =>
    obtain ⟨⟨dm, jm⟩, ⟨dn, jn⟩⟩ := pr
    simp only [h2] at heq
    by_cases hr : 4 * dm < 3 * dn
    · rw [if_pos hr] at heq
      cases heq
      obtain ⟨i, b⟩ := pp
      refine ⟨enum_fst_lt d1 i b hp, ?_⟩
      exact two_nn_train_bound d2 b dm jm dn jn h2
    · rw [if_neg hr] at heq
      cases heq

/-- C3 counterexample: the Keypoint Similarity Scorer is NOT symmetric.
With image A carrying 12 identical descriptors and image B carrying two
distinct well-separated descriptors (homography oracle marking every
submitted match an inlier, as for a perfectly consistent planar scene):
(A, B) gives 12 ratio-test survivors and score 12, while (B, A) gives 0 —
for B's queries the two nearest neighbours in A are equidistant, so the
0.75 ratio test rejects everything and the 12-match gate fails. -/
theorem c3_counterexample :
    ransac_inliers (fun p1 _ => some (List.replicate p1.length true))
        (List.replicate 12 ((0, 0) : Pt)) (some (List.replicate 12 [true, true]))
        [((0, 0) : Pt), (1, 1)] (some [[true, true], [false, false]])
      = some 12 ∧
    ransac_inliers (fun p1 _ => some (List.replicate p1.length true))
        [((0, 0) : Pt), (1, 1)] (some [[true, true], [false, false]])
        (List.replicate 12 ((0, 0) : Pt)) (some (List.replicate 12 [true, true]))
      = some 0 ∧
    some 12 ≠ some 0 := by
  refine ⟨by decide, by decide, by decide⟩

/-- C3 (amended): `ransac_inliers` is not symmetric as a function of its
arguments (see the counterexample); it is symmetric in the degenerate
no-descriptor case (both orders give 0), and the similarity graph is
nevertheless well-defined as an undirected graph because `build_graph`
evaluates each unordered pair exactly once — every edge's weight is the
single directed evaluation with the first-enumerated image as query. -/
theorem c3_theorem {α : Type} (oracle : List Pt → List Pt → Option (List Bool)) :
    (∀ kp1 kp2 des, ransac_inliers oracle kp1 none kp2 des =
        ransac_inliers oracle kp2 des kp1 none) ∧
    (∀ (kps : α → List Pt) (feats : α → Option (List Desc)) (names : List α)
        (thr : Nat) (lim : Option Nat) (edges : List (α × α × Nat)),
      build_graph oracle kps feats names thr lim = some edges →
      ∀ e ∈ edges,
        ransac_inliers oracle (kps e.1) (feats e.1) (kps e.2.1) (feats e.2.1) =
          some e.2.2) := by
  constructor
  · intro kp1 kp2 des
    cases des <;> rfl
  · intro kps feats names thr lim edges h e he
    exact (build_graph_edges_spec oracle kps feats names thr lim edges h e he).1

/-- C3 witness: a concrete two-image corpus whose single evaluated pair
produces the edge (0, 1, 12); the edge weight is exactly the one directed
scorer evaluation. -/
theorem c3_witness :
    build_graph (fun p1 _ => some (List.replicate p1.length true))
        (fun n => if n = 0 then List.replicate 12 ((0, 0) : Pt) else [((0, 0) : Pt), (1, 1)])
        (fun n => if n = 0 then some (List.replicate 12 [true, true])
                  else some [[true, true], [false, false]])
        ([0, 1] : List Nat) 12 none = some [(0, 1, 12)] ∧
    ransac_inliers (fun p1 _ => some (List.replicate p1.length true))
        ((fun n => if n = 0 then List.replicate 12 ((0, 0) : Pt)
                   else [((0, 0) : Pt), (1, 1)]) 0)
        ((fun n => if n = 0 then some (List.replicate 12 [true, true])
                   else some [[true, true], [false, false]]) 0)
        ((fun n => if n = 0 then List.replicate 12 ((0, 0) : Pt)
                   else [((0, 0) : Pt), (1, 1)]) 1)
        ((fun n => if n = 0 then some (List.replicate 12 [true, true])
                   else some [[true, true], [false, false]]) 1)
      = some 12 := by
  refine ⟨by decide, ?_⟩
  exact (c3_theorem (α := Nat) (fun p1 _ => some (List.replicate p1.length true))).2
    (fun n => if n = 0 then List.replicate 12 ((0, 0) : Pt) else [((0, 0) : Pt), (1, 1)])
    (fun n => if n = 0 then some (List.replicate 12 [true, true])
              else some [[true, true], [false, false]])
    [0, 1] 12 none [(0, 1, 12)] (by decide) (0, 1, 12) (by decide)

/-- `ransac_inliers` on two present descriptor sets, with the local
`good` binding unfolded. -/
theorem ransac_inliers_some_some (oracle : List Pt → List Pt → Option (List Bool))
    (kp1 kp2 : List Pt) (d1 d2 : List Desc) :
    ransac_inliers oracle kp1 (some d1) kp2 (some d2) =
      (if d1.length ≠ 0 ∧ d2.length < 2 then none
       else if (good_matches d1 d2).length < 12 then some 0
       else if (good_matches d1 d2).all (fun mch => decide (mch.queryIdx < kp1.length)) &&
               (good_matches d1 d2).all (fun mch => decide (mch.trainIdx < kp2.length)) then
         match oracle
             ((good_matches d1 d2).map (fun mch => kp1.getD mch.queryIdx (0, 0)))
             ((good_matches d1 d2).map (fun mch => kp2.getD mch.trainIdx (0, 0))) with
         | none => some 0
         | some mask => some (mask.count true)
       else none) := rfl

/-- C6: the similarity score is zero when either image yields no
descriptors (`des is None`), when fewer than 12 matches survive the 0.75
ratio test, or when the homography fit returns no inlier mask — for any
keypoint lists; and a pair scoring zero contributes no edge to the graph
whenever the threshold is positive (defaults are 18 and 25). -/
theorem c6_theorem {α : Type} (oracle : List Pt → List Pt → Option (List Bool)) :
    (∀ kp1 kp2 des, ransac_inliers oracle kp1 none kp2 des = some 0) ∧
    (∀ kp1 kp2 d1, ransac_inliers oracle kp1 (some d1) kp2 none = some 0) ∧
    (∀ (kp1 kp2 : List Pt) (d1 d2 : List Desc), ¬ (d1.length ≠ 0 ∧ d2.length < 2) →
      (good_matches d1 d2).length < 12 →
      ransac_inliers oracle kp1 (some d1) kp2 (some d2) = some 0) ∧
    (∀ (kp1 kp2 : List Pt) (d1 d2 : List Desc), ¬ (d1.length ≠ 0 ∧ d2.length < 2) →
      d1.length ≤ kp1.length → d2.length ≤ kp2.length →
      (∀ p1 p2, oracle p1 p2 = none) →
      ransac_inliers oracle kp1 (some d1) kp2 (some d2) = some 0) ∧
    (∀ (kps : α → List Pt) (feats : α → Option (List Desc)) (names : List α)
        (thr : Nat) (lim : Option Nat) (edges : List (α × α × Nat)) (a b : α),
      build_graph oracle kps feats names thr lim = some edges → 1 ≤ thr →
      ransac_inliers oracle (kps a) (feats a) (kps b) (feats b) = some 0 →
      ¬ ∃ w, (a, b, w) ∈ edges) := by
  refine ⟨?_, ?_, ?_, ?_, ?_⟩
  · intro kp1 kp2 des; cases des <;> rfl
  · intro kp1 kp2 d1; rfl
  · intro kp1 kp2 d1 d2 hguard hlen
    rw [ransac_inliers_some_some, if_neg hguard, if_pos hlen]
  · intro kp1 kp2 d1 d2 hguard hk1 hk2 horacle
    by_cases hlen : (good_matches d1 d2).length < 12
    · rw [ransac_inliers_some_some, if_neg hguard, if_pos hlen]
    · have hidx1 : (good_matches d1 d2).all
          (fun mch => decide (mch.queryIdx < kp1.length)) = true := by
        rw [List.all_eq_true]
        intro mch hm
        exact decide_eq_true
          (Nat.lt_of_lt_of_le ((good_matches_bounds d1 d2 mch hm).1) hk1)
      have hidx2 : (good_matches d1 d2).all
          (fun mch => decide (mch.trainIdx < kp2.length)) = true := by
        rw [List.all_eq_true]
        intro mch hm
        exact decide_eq_true
          (Nat.lt_of_lt_of_le ((good_matches_bounds d1 d2 mch hm).2) hk2)
      rw [ransac_inliers_some_some, if_neg hguard, if_neg hlen,
        if_pos (by rw [hidx1, hidx2]; rfl), horacle]
  · intro kps feats names thr lim edges a b h hthr hzero hex
    obtain ⟨w, hw⟩ := hex
    have hspec := build_graph_edges_spec oracle kps feats names thr lim edges h (a, b, w) hw
    have hw0 : w = 0 := by
      have h1 := hspec.1
      rw [hzero] at h1
      exact (Option.some_injective _ h1.symm)
    have h2 : thr ≤ w := hspec.2
    subst hw0
    omega

/-- C6 witness: an empty query descriptor set yields zero ratio-test
survivors and similarity 0, regardless of keypoints. -/
theorem c6_witness :
    (¬ ((([] : List Desc)).length ≠ 0 ∧ ([[true], [false]] : List Desc).length < 2)) ∧
    (good_matches [] [[true], [false]]).length < 12 ∧
    ransac_inliers (fun _ _ => none) [] (some []) [] (some [[true], [false]]) = some 0 := by
  refine ⟨by decide, by decide, ?_⟩
  exact (c6_theorem (α := Nat) (fun _ _ => none)).2.2.1 [] [] [] [[true], [false]]
    (by decide) (by decide)
